import Mathlib

/-!
Verification of the regional-jet mission sizing core (`sizing.py`).

The Python module is embedded shallowly over `ℝ`:

* pure numeric functions become Lean functions over `ℝ` (`math.exp`,
  `math.sqrt` and float `**` become `Real.exp`, `Real.sqrt`, `Real.rpow`);
* optional fields (`weight_fraction`, `range_nm`, `endurance_min`, `engine`)
  become `Option`, and code that would raise on a missing value is threaded
  through `Option`;
* the solver's bounded `for` loop becomes structural recursion on the
  remaining iteration count; the max-range `while` loop, which terminates
  only for positive tolerance, takes an explicit fuel parameter and returns
  `none` when the fuel runs out before the bracket closes;
* Python object mutation in `find_max_range` (`copy.deepcopy` followed by
  assignment to `cfg.segments`) is additionally modelled with an explicit
  heap of configurations so that frame properties are expressible.
-/

noncomputable section

/- Constants from the top of `sizing.py`. -/

def NM_TO_FT : ℝ := 6076.115

def KTS_TO_FPS : ℝ := 1.68781

def GAMMA_AIR : ℝ := 1.4

def R_AIR : ℝ := 1716.49

/- Local constants of `standard_atmosphere`. -/

def T_SL : ℝ := 518.67

def P_SL : ℝ := 2116.22

def RHO_SL : ℝ := 0.002377

def LAPSE : ℝ := 0.003566

def TROPO : ℝ := 36089.0

/-- Return value of `standard_atmosphere` (a dict in Python). -/
structure AtmosphereSample where
  temperature_R : ℝ
  pressure_psf : ℝ
  density_slugft3 : ℝ
  speed_of_sound_fps : ℝ

/-- Troposphere branch of `standard_atmosphere` (`altitude_ft <= TROPO`). -/
def tropoAtmosphere (altitude_ft : ℝ) : AtmosphereSample :=
  { temperature_R := T_SL - LAPSE * altitude_ft
    pressure_psf := P_SL * ((T_SL - LAPSE * altitude_ft) / T_SL) ^ (5.2561 : ℝ)
    density_slugft3 := RHO_SL * ((T_SL - LAPSE * altitude_ft) / T_SL) ^ (4.2561 : ℝ)
    speed_of_sound_fps := Real.sqrt (GAMMA_AIR * R_AIR * (T_SL - LAPSE * altitude_ft)) }

/-- Stratosphere branch of `standard_atmosphere` (`altitude_ft > TROPO`):
isothermal temperature, exponential pressure/density decay from the
tropopause values. -/
def stratoAtmosphere (altitude_ft : ℝ) : AtmosphereSample :=
  { temperature_R := T_SL - LAPSE * TROPO
    pressure_psf := P_SL * ((T_SL - LAPSE * TROPO) / T_SL) ^ (5.2561 : ℝ) *
      Real.exp (-4.806e-5 * (altitude_ft - TROPO))
    density_slugft3 := RHO_SL * ((T_SL - LAPSE * TROPO) / T_SL) ^ (4.2561 : ℝ) *
      Real.exp (-4.806e-5 * (altitude_ft - TROPO))
    speed_of_sound_fps := Real.sqrt (GAMMA_AIR * R_AIR * (T_SL - LAPSE * TROPO)) }

/-- ISA standard atmosphere properties (`standard_atmosphere` in `sizing.py`). -/
def standard_atmosphere (altitude_ft : ℝ) : AtmosphereSample :=
  if altitude_ft ≤ TROPO then tropoAtmosphere altitude_ft else stratoAtmosphere altitude_ft

/-- Dynamic pressure `q = 0.5 * gamma * P * M^2` [psf]. -/
def dynamic_pressure (mach : ℝ) (altitude_ft : ℝ) : ℝ :=
  0.5 * GAMMA_AIR * (standard_atmosphere altitude_ft).pressure_psf * mach ^ 2

/- Data models. -/

inductive SegmentType where
  | WARMUP_TAKEOFF
  | CLIMB
  | CRUISE
  | LOITER
  | LANDING

/-- Fixed engine parameters. -/
structure Engine where
  name : String
  tsfc_cruise : ℝ
  tsfc_loiter : ℝ
  max_thrust_per_engine : ℝ
  num_engines : ℕ := 2
  bypass_ratio : ℝ := 5.0

def Engine.total_max_thrust (e : Engine) : ℝ :=
  e.max_thrust_per_engine * (e.num_engines : ℝ)

/-- Single mission segment definition. -/
structure MissionSegment where
  name : String
  segment_type : SegmentType
  weight_fraction : Option ℝ := none
  range_nm : Option ℝ := none
  endurance_min : Option ℝ := none
  use_loiter_sfc : Bool := false
  use_max_ld : Bool := false

/-- Complete aircraft configuration for Chapter 6 sizing. -/
structure AircraftConfig where
  name : String
  payload_weight : ℝ
  crew_weight : ℝ
  ew_a : ℝ := 0.869
  ew_C1 : ℝ := -0.037
  ew_C2 : ℝ := 0.398
  ew_C3 : ℝ := 0.100
  ew_C4 : ℝ := -0.161
  ew_C5 : ℝ := 0.050
  Kvs : ℝ := 1.0
  composite_factor : ℝ := 0.95
  aspect_ratio : ℝ := 7.8
  cd0 : ℝ := 0.020
  oswald_e : ℝ := 0.80
  wing_area_ft2 : ℝ := 520.0
  mach_max : ℝ := 0.85
  cruise_mach : ℝ := 0.78
  cruise_altitude_ft : ℝ := 41000.0
  trapped_fuel_factor : ℝ := 1.06
  segments : List MissionSegment := []
  reserve_after_segment : ℕ := 5
  engine : Option Engine := none

def AircraftConfig.cruise_velocity_fps (c : AircraftConfig) : ℝ :=
  c.cruise_mach * (standard_atmosphere c.cruise_altitude_ft).speed_of_sound_fps

def AircraftConfig.cruise_velocity_kts (c : AircraftConfig) : ℝ :=
  c.cruise_velocity_fps / KTS_TO_FPS

/-- Dynamic pressure at cruise [psf]. -/
def AircraftConfig.cruise_q (c : AircraftConfig) : ℝ :=
  dynamic_pressure c.cruise_mach c.cruise_altitude_ft

/-- The `parasitic` local of `ld_from_drag_polar`: `q*CD0/(W/S)`. -/
def parasitic (c : AircraftConfig) (wing_loading : ℝ) : ℝ :=
  c.cruise_q * c.cd0 / wing_loading

/-- The `induced` local of `ld_from_drag_polar`: `(W/S)/(q*pi*A*e)`. -/
def induced (c : AircraftConfig) (wing_loading : ℝ) : ℝ :=
  wing_loading / (c.cruise_q * Real.pi * c.aspect_ratio * c.oswald_e)

/-- L/D from drag polar at a given wing loading (Raymer Eq 6.13). -/
def AircraftConfig.ld_from_drag_polar (c : AircraftConfig) (wing_loading : ℝ) : ℝ :=
  1 / (parasitic c wing_loading + induced c wing_loading)

/-- Maximum L/D: `1 / (2 * sqrt(CD0 / (pi*A*e)))`. -/
def AircraftConfig.ld_max (c : AircraftConfig) : ℝ :=
  1 / (2 * Real.sqrt (c.cd0 / (Real.pi * c.aspect_ratio * c.oswald_e)))

/-- Result for a single mission segment. -/
structure SegmentResult where
  name : String
  segment_type : SegmentType
  weight_fraction : ℝ
  fuel_burned : ℝ := 0.0
  cruise_time_s : Option ℝ := none
  ld_used : Option ℝ := none

/-- Complete sizing output. -/
structure SizingResult where
  config_name : String
  converged : Bool
  iterations : ℕ
  w0 : ℝ
  we : ℝ
  wf : ℝ
  w_crew : ℝ
  w_payload : ℝ
  we_frac : ℝ
  wf_frac : ℝ
  trip_fuel : ℝ
  reserve_fuel : ℝ
  segment_results : List SegmentResult := []
  thrust_to_weight : ℝ := 0.0
  wing_loading : ℝ := 0.0
  ld_cruise : ℝ := 0.0
  ld_max : ℝ := 0.0
  growth_factor : ℝ := 0.0
  weight_margin : ℝ := 0.0

/- Weight fraction calculations (Raymer Ch 6). -/

/-- Climb and accelerate weight fraction (Raymer Eq 6.9, subsonic). -/
def climb_weight_fraction (mach_end : ℝ) : ℝ :=
  (1.0065 - 0.0325 * mach_end) / (1.0065 - 0.0325 * 0.1)

/-- Breguet range equation for jet cruise (Raymer Eq 6.11).
Returns `(Wi/Wi-1, cruise_time_seconds)`. -/
def cruise_weight_fraction (range_nm tsfc_hr velocity_fps ld_ratio : ℝ) : ℝ × ℝ :=
  (Real.exp (-(range_nm * NM_TO_FT) * (tsfc_hr / 3600) / (velocity_fps * ld_ratio)),
   range_nm * NM_TO_FT / velocity_fps)

/-- Breguet endurance equation for jet loiter (Raymer Eq 6.14). -/
def loiter_weight_fraction (endurance_min tsfc_hr ld_ratio : ℝ) : ℝ :=
  Real.exp (-(endurance_min * 60) * (tsfc_hr / 3600) / ld_ratio)

/-- Simple empty weight fraction (Raymer Table 3.1): `A * W0^C * Kvs * composite`. -/
def empty_weight_fraction_ch3 (w0 A C Kvs composite_factor : ℝ) : ℝ :=
  A * w0 ^ C * Kvs * composite_factor

/-- Refined empty weight fraction (Raymer Table 6.1 - Jet Transport). -/
def empty_weight_fraction_ch6 (w0 : ℝ) (c : AircraftConfig) (tw_ratio wing_loading : ℝ) : ℝ :=
  c.ew_a * w0 ^ c.ew_C1 * c.aspect_ratio ^ c.ew_C2 * tw_ratio ^ c.ew_C3 *
    wing_loading ^ c.ew_C4 * c.mach_max ^ c.ew_C5 * c.Kvs * c.composite_factor

/- Solver (`compute_segment_results`, `solve_takeoff_weight`, `evaluate_fixed_w0`). -/

/-- Weight fraction, optional cruise time and optional L/D selected for one
segment: the dispatch on `seg.segment_type` inside `compute_segment_results`.
`none` corresponds to the Python code raising on a missing optional field or
a missing engine. -/
def segStep (c : AircraftConfig) (ld_cruise ld_loiter : ℝ) (seg : MissionSegment) :
    Option (ℝ × Option ℝ × Option ℝ) :=
  match seg.segment_type with
  | SegmentType.WARMUP_TAKEOFF =>
    match seg.weight_fraction with
    | none => none
    | some wf => some (wf, none, none)
  | SegmentType.CLIMB =>
    match seg.weight_fraction with
    | some wf => some (wf, none, none)
    | none => some (climb_weight_fraction c.cruise_mach, none, none)
  | SegmentType.CRUISE =>
    match c.engine, seg.range_nm with
    | some e, some rng =>
      let tsfc := if seg.use_loiter_sfc then e.tsfc_loiter else e.tsfc_cruise
      let ld := if seg.use_max_ld then ld_loiter else ld_cruise
      let p := cruise_weight_fraction rng tsfc c.cruise_velocity_fps ld
      some (p.1, some p.2, some ld)
    | _, _ => none
  | SegmentType.LOITER =>
    match c.engine, seg.endurance_min with
    | some e, some em =>
      let tsfc := if seg.use_loiter_sfc then e.tsfc_loiter else e.tsfc_cruise
      let ld := if seg.use_max_ld then ld_loiter else ld_cruise
      some (loiter_weight_fraction em tsfc ld, none, some ld)
    | _, _ => none
  | SegmentType.LANDING =>
    match seg.weight_fraction with
    | none => none
    | some wf => some (wf, none, none)

/-- The loop of `compute_segment_results`: walk the segment list tracking the
running weight `w_current`; per leg, `fuel_burned = w_current * (1 - wf)` and
then `w_current := w_current * wf`. -/
def walkSegments (c : AircraftConfig) (ld_cruise ld_loiter : ℝ) :
    List MissionSegment → ℝ → Option (List SegmentResult)
  | [], _ => some []
  | seg :: rest, w_current =>
    match segStep c ld_cruise ld_loiter seg with
    | none => none
    | some (wf, ctime, ldu) =>
      match walkSegments c ld_cruise ld_loiter rest (w_current * wf) with
      | none => none
      | some rs =>
        some ({ name := seg.name, segment_type := seg.segment_type,
                weight_fraction := wf, fuel_burned := w_current * (1 - wf),
                cruise_time_s := ctime, ld_used := ldu } :: rs)

/-- Step through the mission computing fuel burn per segment (Raymer 6.3.4). -/
def compute_segment_results (c : AircraftConfig) (w_start ld_cruise ld_loiter : ℝ) :
    Option (List SegmentResult) :=
  walkSegments c ld_cruise ld_loiter c.segments w_start

/-- `sum(sr.fuel_burned for sr in seg_results)`. -/
def sumFuel (rs : List SegmentResult) : ℝ :=
  (rs.map SegmentResult.fuel_burned).sum

/-- The quantity `1 - wf_frac - we_frac` computed by one iteration of
`solve_takeoff_weight` at the current guess `w0` (`none` when the mission
walk fails).  The in-loop bindings of `seg_results`, `ld_cruise`, etc. are
dead after the loop (the final breakdown recomputes all of them), so the
loop is determined by this denominator. -/
def iterDenom (c : AircraftConfig) (e : Engine) (useCh6 : Bool) (w0 : ℝ) : Option ℝ :=
  match compute_segment_results c w0 (c.ld_from_drag_polar (w0 / c.wing_area_ft2)) c.ld_max with
  | none => none
  | some segs =>
    let wf_frac := c.trapped_fuel_factor * sumFuel segs / w0
    let we_frac :=
      if useCh6 then
        empty_weight_fraction_ch6 w0 c (e.total_max_thrust / w0) (w0 / c.wing_area_ft2)
      else
        empty_weight_fraction_ch3 w0 1.272 (-0.072) c.Kvs c.composite_factor
    some (1 - wf_frac - we_frac)

/-- Sizing equation (Raymer Eq 6.1): `W0_new = (Wcrew + Wpayload) / denom`. -/
def w0New (c : AircraftConfig) (denom : ℝ) : ℝ :=
  (c.crew_weight + c.payload_weight) / denom

/-- The `for i in range(max_iter)` loop of `solve_takeoff_weight`, returning
`(w0, converged, iterations)`.  The first argument of the recursion is the
number of remaining iterations; `iters` is the iteration counter so far. -/
def solveLoop (c : AircraftConfig) (e : Engine) (tol : ℝ) (useCh6 : Bool) :
    ℕ → ℝ → ℕ → Option (ℝ × Bool × ℕ)
  | 0, w0, iters => some (w0, false, iters)
  | n + 1, w0, iters =>
    match iterDenom c e useCh6 w0 with
    | none => none
    | some denom =>
      if denom ≤ 0 then
        some (w0, false, iters + 1)
      else if |w0New c denom - w0| < tol then
        some (w0New c denom, true, iters + 1)
      else
        solveLoop c e tol useCh6 n (0.75 * w0New c denom + 0.25 * w0) (iters + 1)

/-- Final weight breakdown after the iteration loop of `solve_takeoff_weight`:
everything is recomputed at the final `w0`. -/
def finalBreakdown (c : AircraftConfig) (e : Engine) (w0 : ℝ) (converged : Bool)
    (iterations : ℕ) (useCh6 : Bool) : Option SizingResult :=
  let tw_final := e.total_max_thrust / w0
  let ws_final := w0 / c.wing_area_ft2
  let ld_cruise := c.ld_from_drag_polar ws_final
  let ld_max_val := c.ld_max
  let we_frac :=
    if useCh6 then empty_weight_fraction_ch6 w0 c tw_final ws_final
    else empty_weight_fraction_ch3 w0 1.272 (-0.072) c.Kvs c.composite_factor
  match compute_segment_results c w0 ld_cruise ld_max_val with
  | none => none
  | some seg_results =>
    let wf := c.trapped_fuel_factor * sumFuel seg_results
    let trip_fuel := sumFuel (seg_results.take c.reserve_after_segment)
    some
      { config_name := c.name
        converged := converged
        iterations := iterations
        w0 := w0
        we := w0 * we_frac
        wf := wf
        w_crew := c.crew_weight
        w_payload := c.payload_weight
        we_frac := we_frac
        wf_frac := wf / w0
        trip_fuel := trip_fuel
        reserve_fuel := wf - trip_fuel
        segment_results := seg_results
        thrust_to_weight := tw_final
        wing_loading := ws_final
        ld_cruise := ld_cruise
        ld_max := ld_max_val
        growth_factor := w0 / c.payload_weight }

/-- Iteratively solve for W0 (Raymer 6.3.2 / 6.4). -/
def solve_takeoff_weight (c : AircraftConfig) (w0_guess : ℝ := 60000)
    (tolerance : ℝ := 0.5) (max_iter : ℕ := 200) (use_ch6_weights : Bool := true) :
    Option SizingResult :=
  match c.engine with
  | none => none
  | some e =>
    match solveLoop c e tolerance use_ch6_weights max_iter w0_guess 0 with
    | none => none
    | some (w0, converged, iterations) =>
      finalBreakdown c e w0 converged iterations use_ch6_weights

/-- Evaluate a mission at a fixed W0 (no iteration). -/
def evaluate_fixed_w0 (c : AircraftConfig) (w0 : ℝ) : Option SizingResult :=
  match c.engine with
  | none => none
  | some e =>
    let tw := e.total_max_thrust / w0
    let ws := w0 / c.wing_area_ft2
    let ld_cruise := c.ld_from_drag_polar ws
    let ld_max_val := c.ld_max
    match compute_segment_results c w0 ld_cruise ld_max_val with
    | none => none
    | some seg_results =>
      let wf := c.trapped_fuel_factor * sumFuel seg_results
      let we_frac := empty_weight_fraction_ch6 w0 c tw ws
      let we := w0 * we_frac
      let trip_fuel := sumFuel (seg_results.take c.reserve_after_segment)
      let margin := w0 - we - wf - c.crew_weight - c.payload_weight
      some
        { config_name := c.name
          converged := if (0 : ℝ) ≤ margin then true else false
          iterations := 0
          w0 := w0
          we := we
          wf := wf
          w_crew := c.crew_weight
          w_payload := c.payload_weight
          we_frac := we_frac
          wf_frac := wf / w0
          trip_fuel := trip_fuel
          reserve_fuel := wf - trip_fuel
          segment_results := seg_results
          thrust_to_weight := tw
          wing_loading := ws
          ld_cruise := ld_cruise
          ld_max := ld_max_val
          growth_factor := w0 / c.payload_weight
          weight_margin := margin }

/- Max-range finder (`find_max_range`). -/

/-- The `while (range_hi - range_lo) > tolerance_nm` loop of `find_max_range`.
Each pass rebuilds the mission on a copy of the configuration
(`copy.deepcopy` followed by `cfg.segments = mission_builder(mid)` becomes a
functional record update) and evaluates at the fixed `w0`.  The natural
number is fuel bounding the number of passes; `none` on exhaustion. -/
def fmrLoop (c : AircraftConfig) (w0 : ℝ) (mb : ℝ → List MissionSegment) (tol : ℝ) :
    ℕ → ℝ → ℝ → Option (SizingResult × ℝ) → Option (Option (SizingResult × ℝ) × ℝ)
  | 0, lo, hi, best => if hi - lo ≤ tol then some (best, lo) else none
  | n + 1, lo, hi, best =>
    if hi - lo ≤ tol then some (best, lo)
    else
      match evaluate_fixed_w0 { c with segments := mb ((lo + hi) / 2) } w0 with
      | none => none
      | some result =>
        if 0 ≤ result.weight_margin then
          fmrLoop c w0 mb tol n ((lo + hi) / 2) hi (some (result, (lo + hi) / 2))
        else
          fmrLoop c w0 mb tol n lo ((lo + hi) / 2) best

/-- Binary search for the maximum cruise range at which a fixed W0 closes. -/
def find_max_range (c : AircraftConfig) (w0 : ℝ) (mb : ℝ → List MissionSegment)
    (range_lo : ℝ := 100) (range_hi : ℝ := 5000) (tolerance_nm : ℝ := 1)
    (fuel : ℕ := 0) : Option (SizingResult × ℝ) :=
  match fmrLoop c w0 mb tolerance_nm fuel range_lo range_hi none with
  | none => none
  | some (best, lo) =>
    match best with
    | some br => some br
    | none =>
      match evaluate_fixed_w0 { c with segments := mb lo } w0 with
      | none => none
      | some r => some (r, lo)

/- Heap model of `find_max_range`, for the frame property.  Python
configurations are mutable heap objects; `copy.deepcopy(config)` allocates a
fresh object and `cfg.segments = ...` mutates the object `cfg` points to.
The heap is a store of configurations with a next-free address. -/

def Heap : Type := (ℕ → AircraftConfig) × ℕ

def heapRead (H : Heap) (i : ℕ) : AircraftConfig := H.1 i

def heapWrite (H : Heap) (i : ℕ) (c : AircraftConfig) : Heap :=
  (Function.update H.1 i c, H.2)

/-- `copy.deepcopy`: allocate a fresh object holding a copy of `c`; returns
the new heap and the fresh address. -/
def heapAlloc (H : Heap) (c : AircraftConfig) : Heap × ℕ :=
  ((Function.update H.1 H.2 c, H.2 + 1), H.2)

/-- The `find_max_range` loop with the heap explicit: `ci` is the address of
the caller's configuration; each pass deep-copies it, mutates the copy's
`segments`, and evaluates the copy. -/
def fmrLoopH (w0 : ℝ) (mb : ℝ → List MissionSegment) (tol : ℝ) (ci : ℕ) :
    ℕ → Heap → ℝ → ℝ → Option (SizingResult × ℝ) →
      Option (Option (SizingResult × ℝ) × ℝ × Heap)
  | 0, H, lo, hi, best => if hi - lo ≤ tol then some (best, lo, H) else none
  | n + 1, H, lo, hi, best =>
    if hi - lo ≤ tol then some (best, lo, H)
    else
      let A := heapAlloc H (heapRead H ci)
      let H2 := heapWrite A.1 A.2
        { heapRead A.1 A.2 with segments := mb ((lo + hi) / 2) }
      match evaluate_fixed_w0 (heapRead H2 A.2) w0 with
      | none => none
      | some result =>
        if 0 ≤ result.weight_margin then
          fmrLoopH w0 mb tol ci n H2 ((lo + hi) / 2) hi (some (result, (lo + hi) / 2))
        else
          fmrLoopH w0 mb tol ci n H2 lo ((lo + hi) / 2) best

/-- `find_max_range` with the heap explicit; returns the result together with
the final heap, so that the effect on the caller's configuration is
observable. -/
def find_max_rangeH (w0 : ℝ) (mb : ℝ → List MissionSegment) (tol : ℝ) (ci : ℕ)
    (fuel : ℕ) (H : Heap) (lo hi : ℝ) : Option ((SizingResult × ℝ) × Heap) :=
  match fmrLoopH w0 mb tol ci fuel H lo hi none with
  | none => none
  | some (best, lo2, H2) =>
    match best with
    | some br => some (br, H2)
    | none =>
      let A := heapAlloc H2 (heapRead H2 ci)
      let H3 := heapWrite A.1 A.2 { heapRead A.1 A.2 with segments := mb lo2 }
      match evaluate_fixed_w0 (heapRead H3 A.2) w0 with
      | none => none
      | some r => some ((r, lo2), H3)

/- Specification-side definitions used to state the solver claims. -/

/-- Running weight of the mission walk before segment `i`: the starting
weight times the product of the first `i` weight fractions. -/
def runningWeight (w : ℝ) (rs : List SegmentResult) (i : ℕ) : ℝ :=
  w * (((rs.take i).map SegmentResult.weight_fraction).prod)

/-- The damped update applied when an iteration neither breaks nor
converges: `W0 <- 0.75*W0_new + 0.25*W0`. -/
def nextGuess (c : AircraftConfig) (e : Engine) (useCh6 : Bool) (w : ℝ) : Option ℝ :=
  (iterDenom c e useCh6 w).map (fun d => 0.75 * w0New c d + 0.25 * w)

/-- The guess the solver holds at the start of iteration `i`, assuming no
earlier iteration broke or converged. -/
def guessSeq (c : AircraftConfig) (e : Engine) (useCh6 : Bool) : ℕ → ℝ → Option ℝ
  | 0, w => some w
  | i + 1, w => (nextGuess c e useCh6 w).bind (guessSeq c e useCh6 i)

/-- An iteration at guess `w` neither breaks (`denom <= 0`) nor satisfies the
convergence test, so the loop continues. -/
def StepContinues (c : AircraftConfig) (e : Engine) (useCh6 : Bool) (tol w : ℝ) : Prop :=
  ∃ d, iterDenom c e useCh6 w = some d ∧ 0 < d ∧ ¬ |w0New c d - w| < tol

/-- An iteration at guess `w` passes the break check and satisfies
`|W0_new - W0| < tolerance`. -/
def StepConverges (c : AircraftConfig) (e : Engine) (useCh6 : Bool) (tol w : ℝ) : Prop :=
  ∃ d, iterDenom c e useCh6 w = some d ∧ 0 < d ∧ |w0New c d - w| < tol

/-- Some iteration `i < n`, reached without an earlier break or convergence,
satisfies the convergence test. -/
def ConvergedWithin (c : AircraftConfig) (e : Engine) (useCh6 : Bool)
    (tol w0g : ℝ) (n : ℕ) : Prop :=
  ∃ i < n, ∃ w, guessSeq c e useCh6 i w0g = some w ∧
    (∀ j < i, ∀ wj, guessSeq c e useCh6 j w0g = some wj →
      StepContinues c e useCh6 tol wj) ∧
    StepConverges c e useCh6 tol w

/- Concrete data used by the closed witness theorems. -/

/-- A small concrete engine. -/
def engW : Engine :=
  { name := "eng", tsfc_cruise := 0.6, tsfc_loiter := 0.5,
    max_thrust_per_engine := 10000 }

/-- A concrete configuration with a one-leg mission given by a literal
weight fraction. -/
def cfgW : AircraftConfig :=
  { name := "cfgW", payload_weight := 800, crew_weight := 400,
    segments := [{ name := "takeoff", segment_type := SegmentType.WARMUP_TAKEOFF,
                   weight_fraction := some 0.97 }],
    engine := some engW }

/-- A concrete configuration with an empty mission. -/
def cfgE : AircraftConfig :=
  { name := "cfgE", payload_weight := 800, crew_weight := 400,
    segments := [], engine := some engW }

/-- A configuration whose refined empty-weight regression is the constant 2
(all exponents zero), so the sizing denominator is `1 - 0 - 2 < 0` at every
guess. -/
def cfgC : AircraftConfig :=
  { name := "cfgC", payload_weight := 800, crew_weight := 400,
    ew_a := 2, ew_C1 := 0, ew_C2 := 0, ew_C3 := 0, ew_C4 := 0, ew_C5 := 0,
    Kvs := 1, composite_factor := 1,
    segments := [], engine := some engW }

/-- A configuration cruising at sea level at Mach 1, giving a positive
cruise dynamic pressure that is provable by elementary means. -/
def cfgA : AircraftConfig :=
  { name := "cfgA", payload_weight := 800, crew_weight := 400,
    cruise_mach := 1, cruise_altitude_ft := 0 }

/-- Mission builder producing an empty mission at every range. -/
def mbE : ℝ → List MissionSegment := fun _ => []

/-- A one-cell heap holding `cfgW` at address 0. -/
def heapW : Heap := (fun _ => cfgW, 1)

/- Theorems. -/

theorem runningWeight_zero (w : ℝ) (rs : List SegmentResult) : runningWeight w rs 0 = w := by
  simp [runningWeight]

theorem runningWeight_cons_succ (w : ℝ) (a : SegmentResult) (l : List SegmentResult) (i : ℕ) :
    runningWeight w (a :: l) (i + 1) = runningWeight (w * a.weight_fraction) l i := by
  simp only [runningWeight, List.take_succ_cons, List.map_cons, List.prod_cons]
  ring

theorem runningWeight_succ_get (w : ℝ) (rs : List SegmentResult) (i : ℕ) (hi : i < rs.length) :
    runningWeight w rs (i + 1) = runningWeight w rs i * (rs.get ⟨i, hi⟩).weight_fraction := by
  induction rs generalizing w i with
  | nil => exact absurd hi (by simp)
  | cons a l ih =>
    cases i with
    | zero => simp [runningWeight]
    | succ k =>
      have hk : k < l.length := by simpa using hi
      rw [runningWeight_cons_succ, runningWeight_cons_succ, ih (w * a.weight_fraction) k hk]
      rfl

theorem walkSegments_fuel (c : AircraftConfig) (lc ll : ℝ) :
    ∀ (segs : List MissionSegment) (w : ℝ) (rs : List SegmentResult),
      walkSegments c lc ll segs w = some rs →
      (∀ i (hi : i < rs.length),
          (rs.get ⟨i, hi⟩).fuel_burned
            = runningWeight w rs i * (1 - (rs.get ⟨i, hi⟩).weight_fraction)) ∧
      sumFuel rs = w - runningWeight w rs rs.length := by
  intro segs
  induction segs with
  | nil =>
    intro w rs h
    simp only [walkSegments, Option.some.injEq] at h
    subst h
    constructor
    · intro i hi; exact absurd hi (by simp)
    · simp [sumFuel, runningWeight]
  | cons seg rest ih =>
    intro w rs h
    simp only [walkSegments] at h
    rcases hs : segStep c lc ll seg with _ | ⟨wf, ctime, ldu⟩
    · simp only [hs] at h
      exact absurd h (by simp)
    · simp only [hs] at h
      rcases hr : walkSegments c lc ll rest (w * wf) with _ | rs0
      · simp only [hr] at h
        exact absurd h (by simp)
      · simp only [hr, Option.some.injEq] at h
        subst h
        obtain ⟨ih1, ih2⟩ := ih (w * wf) rs0 hr
        constructor
        · intro i hi
          cases i with
          | zero => simp [runningWeight]
          | succ k =>
            have hk : k < rs0.length := by simpa using hi
            rw [runningWeight_cons_succ]
            exact ih1 k hk
        · simp only [sumFuel, List.map_cons, List.sum_cons, List.length_cons]
          rw [runningWeight_cons_succ]
          have hsum : (rs0.map SegmentResult.fuel_burned).sum
              = w * wf - runningWeight (w * wf) rs0 rs0.length := ih2
          rw [hsum]
          show w * (1 - wf) + (w * wf - runningWeight (w * wf) rs0 rs0.length)
              = w - runningWeight (w * wf) rs0 rs0.length
          ring

/-- C1: in the list returned by `compute_segment_results`, every segment's
`fuel_burned` equals the running weight before that segment times
`(1 - weight_fraction)`, the running weight after the segment equals the
weight before it times `weight_fraction`, and the total fuel burned equals
the starting weight minus the final weight. -/
theorem compute_segment_results_invariant (c : AircraftConfig)
    (w ld_cruise ld_loiter : ℝ) (rs : List SegmentResult)
    (h : compute_segment_results c w ld_cruise ld_loiter = some rs) :
    (∀ i (hi : i < rs.length),
        (rs.get ⟨i, hi⟩).fuel_burned
          = runningWeight w rs i * (1 - (rs.get ⟨i, hi⟩).weight_fraction) ∧
        runningWeight w rs (i + 1)
          = runningWeight w rs i * (rs.get ⟨i, hi⟩).weight_fraction) ∧
    sumFuel rs = w - runningWeight w rs rs.length := by
  obtain ⟨h1, h2⟩ := walkSegments_fuel c ld_cruise ld_loiter c.segments w rs h
  exact ⟨fun i hi => ⟨h1 i hi, runningWeight_succ_get w rs i hi⟩, h2⟩

/-- Witness for C1 at a concrete configuration and starting weight. -/
theorem compute_segment_results_invariant_witness :
    ∃ rs, compute_segment_results cfgW 1000 5 6 = some rs ∧
      sumFuel rs = 1000 - runningWeight 1000 rs rs.length := by
  have h := compute_segment_results_invariant cfgW 1000 5 6 _ rfl
  exact ⟨_, rfl, h.2⟩

/-- C8: the stratosphere branch of `standard_atmosphere`, evaluated at the
tropopause altitude 36,089 ft, yields the same temperature, pressure,
density and speed of sound as the troposphere branch there (and
`standard_atmosphere` itself takes the troposphere branch at that altitude). -/
theorem atmosphere_continuous_at_tropopause :
    stratoAtmosphere 36089 = tropoAtmosphere 36089 ∧
    standard_atmosphere 36089 = tropoAtmosphere 36089 := by
  have hT : TROPO = (36089 : ℝ) := by norm_num [TROPO]
  constructor
  · simp only [stratoAtmosphere, tropoAtmosphere, hT, AtmosphereSample.mk.injEq]
    norm_num
  · rw [standard_atmosphere, if_pos (le_of_eq hT.symm)]

/-- C9 counterexample: the claim's precondition for the climb equation is
only `0.1 ≤ cruise Mach`, but at Mach 100 the climb weight fraction is
negative, not in `(0, 1]`. -/
theorem climb_weight_fraction_negative_at_mach_100 :
    (0.1 : ℝ) ≤ 100 ∧ climb_weight_fraction 100 < 0 := by
  constructor
  · norm_num
  · unfold climb_weight_fraction
    norm_num

/-- C9 (amended): with the climb equation restricted to its subsonic domain
`0.1 ≤ M ≤ 1` (the code comments call Eq 6.9 subsonic), and with positive
range, endurance, TSFC, velocity and L/D for the Breguet equations,
`climb_weight_fraction`, the fraction component of `cruise_weight_fraction`,
and `loiter_weight_fraction` all lie in `(0, 1]`. -/
theorem weight_fractions_in_unit_interval :
    (∀ M : ℝ, 0.1 ≤ M → M ≤ 1 →
        0 < climb_weight_fraction M ∧ climb_weight_fraction M ≤ 1) ∧
    (∀ rng tsfc vel ld : ℝ, 0 < rng → 0 < tsfc → 0 < vel → 0 < ld →
        0 < (cruise_weight_fraction rng tsfc vel ld).1 ∧
          (cruise_weight_fraction rng tsfc vel ld).1 ≤ 1) ∧
    (∀ em tsfc ld : ℝ, 0 < em → 0 < tsfc → 0 < ld →
        0 < loiter_weight_fraction em tsfc ld ∧ loiter_weight_fraction em tsfc ld ≤ 1) := by
  have hNM : (0 : ℝ) < NM_TO_FT := by norm_num [NM_TO_FT]
  refine ⟨fun M h1 h2 => ?_, fun rng tsfc vel ld hr ht hv hl => ?_,
    fun em tsfc ld he ht hl => ?_⟩
  · unfold climb_weight_fraction
    constructor
    · apply div_pos
      · nlinarith
      · norm_num
    · rw [div_le_one (by norm_num : (0 : ℝ) < 1.0065 - 0.0325 * 0.1)]
      nlinarith
  · simp only [cruise_weight_fraction]
    constructor
    · exact Real.exp_pos _
    · rw [Real.exp_le_one_iff]
      have hnum : -(rng * NM_TO_FT) * (tsfc / 3600) ≤ 0 := by
        have : 0 < (rng * NM_TO_FT) * (tsfc / 3600) := by
          apply mul_pos (mul_pos hr hNM)
          positivity
        nlinarith
      have hden : 0 ≤ vel * ld := le_of_lt (mul_pos hv hl)
      exact div_nonpos_of_nonpos_of_nonneg hnum hden
  · unfold loiter_weight_fraction
    constructor
    · exact Real.exp_pos _
    · rw [Real.exp_le_one_iff]
      have hnum : -(em * 60) * (tsfc / 3600) ≤ 0 := by
        have : 0 < (em * 60) * (tsfc / 3600) := by
          apply mul_pos (by nlinarith)
          positivity
        nlinarith
      exact div_nonpos_of_nonpos_of_nonneg hnum (le_of_lt hl)

/-- Witness for the amended C9 at concrete subsonic and positive inputs. -/
theorem weight_fractions_in_unit_interval_witness :
    (0 < climb_weight_fraction 0.78 ∧ climb_weight_fraction 0.78 ≤ 1) ∧
    (0 < (cruise_weight_fraction 1800 0.6 750 16).1 ∧
      (cruise_weight_fraction 1800 0.6 750 16).1 ≤ 1) ∧
    (0 < loiter_weight_fraction 30 0.5 18 ∧ loiter_weight_fraction 30 0.5 18 ≤ 1) := by
  obtain ⟨h1, h2, h3⟩ := weight_fractions_in_unit_interval
  exact ⟨h1 0.78 (by norm_num) (by norm_num),
    h2 1800 0.6 750 16 (by norm_num) (by norm_num) (by norm_num) (by norm_num),
    h3 30 0.5 18 (by norm_num) (by norm_num) (by norm_num)⟩

/-- C5: for positive wing loading and positive cruise dynamic pressure,
`cd0`, aspect ratio and Oswald efficiency, `ld_max` bounds
`ld_from_drag_polar` from above, with equality exactly when the parasitic
drag term equals the induced drag term. -/
theorem ld_from_drag_polar_le_ld_max (c : AircraftConfig) (ws : ℝ)
    (hws : 0 < ws) (hq : 0 < c.cruise_q) (hcd : 0 < c.cd0)
    (hA : 0 < c.aspect_ratio) (hosw : 0 < c.oswald_e) :
    c.ld_from_drag_polar ws ≤ c.ld_max ∧
    (c.ld_from_drag_polar ws = c.ld_max ↔ parasitic c ws = induced c ws) := by
  have hp : 0 < parasitic c ws := div_pos (mul_pos hq hcd) hws
  have hpiAe : 0 < c.cruise_q * Real.pi * c.aspect_ratio * c.oswald_e :=
    mul_pos (mul_pos (mul_pos hq Real.pi_pos) hA) hosw
  have hind : 0 < induced c ws := div_pos hws hpiAe
  have hK : 0 < c.cd0 / (Real.pi * c.aspect_ratio * c.oswald_e) :=
    div_pos hcd (mul_pos (mul_pos Real.pi_pos hA) hosw)
  have hprod : parasitic c ws * induced c ws
      = c.cd0 / (Real.pi * c.aspect_ratio * c.oswald_e) := by
    unfold parasitic induced
    field_simp
    ring
  have hs : Real.sqrt (c.cd0 / (Real.pi * c.aspect_ratio * c.oswald_e))
      = Real.sqrt (parasitic c ws) * Real.sqrt (induced c ws) := by
    rw [← hprod, Real.sqrt_mul hp.le]
  have hsq : 0 < Real.sqrt (c.cd0 / (Real.pi * c.aspect_ratio * c.oswald_e)) :=
    Real.sqrt_pos.mpr hK
  have hAM : 2 * Real.sqrt (c.cd0 / (Real.pi * c.aspect_ratio * c.oswald_e))
      ≤ parasitic c ws + induced c ws := by
    rw [hs]
    nlinarith [sq_nonneg (Real.sqrt (parasitic c ws) - Real.sqrt (induced c ws)),
      Real.sq_sqrt hp.le, Real.sq_sqrt hind.le]
  constructor
  · unfold AircraftConfig.ld_from_drag_polar AircraftConfig.ld_max
    exact one_div_le_one_div_of_le (by positivity) hAM
  · constructor
    · intro h
      unfold AircraftConfig.ld_from_drag_polar AircraftConfig.ld_max at h
      have hsum : parasitic c ws + induced c ws
          = 2 * Real.sqrt (c.cd0 / (Real.pi * c.aspect_ratio * c.oswald_e)) := by
        have h2 := congrArg (fun x => 1 / x) h
        simpa [one_div_one_div] using h2
      rw [hs] at hsum
      have hz : (Real.sqrt (parasitic c ws) - Real.sqrt (induced c ws)) ^ 2 = 0 := by
        nlinarith [Real.sq_sqrt hp.le, Real.sq_sqrt hind.le]
      have hse : Real.sqrt (parasitic c ws) = Real.sqrt (induced c ws) := by
        have := pow_eq_zero_iff (n := 2) (by norm_num) |>.mp hz
        linarith [this]
      exact (Real.sqrt_inj hp.le hind.le).mp hse
    · intro h
      unfold AircraftConfig.ld_from_drag_polar AircraftConfig.ld_max
      have hsp : Real.sqrt (c.cd0 / (Real.pi * c.aspect_ratio * c.oswald_e))
          = parasitic c ws := by
        rw [hs, ← h, Real.mul_self_sqrt hp.le]
      rw [hsp, ← h]
      ring

/-- Witness for C5 at a concrete configuration (sea-level cruise at Mach 1)
and wing loading 50 psf. -/
theorem ld_from_drag_polar_le_ld_max_witness :
    cfgA.ld_from_drag_polar 50 ≤ cfgA.ld_max := by
  have hp0 : 0 < (standard_atmosphere 0).pressure_psf := by
    rw [standard_atmosphere, if_pos (by norm_num [TROPO] : (0 : ℝ) ≤ TROPO)]
    have hb : (0 : ℝ) < (T_SL - LAPSE * 0) / T_SL := by norm_num [T_SL, LAPSE]
    simp only [tropoAtmosphere]
    exact mul_pos (by norm_num [P_SL]) (Real.rpow_pos_of_pos hb _)
  have hq : 0 < cfgA.cruise_q := by
    have h1 : cfgA.cruise_q = 0.5 * GAMMA_AIR * (standard_atmosphere 0).pressure_psf * 1 ^ 2 :=
      rfl
    rw [h1]
    have hg : (0 : ℝ) < 0.5 * GAMMA_AIR := by norm_num [GAMMA_AIR]
    nlinarith
  have hcd : 0 < cfgA.cd0 := by
    have : cfgA.cd0 = 0.020 := rfl
    rw [this]; norm_num
  have hA : 0 < cfgA.aspect_ratio := by
    have : cfgA.aspect_ratio = 7.8 := rfl
    rw [this]; norm_num
  have hosw : 0 < cfgA.oswald_e := by
    have : cfgA.oswald_e = 0.80 := rfl
    rw [this]; norm_num
  exact (ld_from_drag_polar_le_ld_max cfgA 50 (by norm_num) hq hcd hA hosw).1

/-- C4: `evaluate_fixed_w0` performs no iteration, its `weight_margin` is
the fixed weight minus empty weight, total fuel, crew and payload weights,
and `converged` is true exactly when the margin is nonnegative. -/
theorem evaluate_fixed_w0_spec (c : AircraftConfig) (w : ℝ) (r : SizingResult)
    (hw : 0 < w) (h : evaluate_fixed_w0 c w = some r) :
    r.iterations = 0 ∧
    r.weight_margin = w - r.we - r.wf - c.crew_weight - c.payload_weight ∧
    (r.converged = true ↔ 0 ≤ r.weight_margin) := by
  simp only [evaluate_fixed_w0] at h
  rcases he : c.engine with _ | e
  · rw [he] at h
    exact absurd h (by simp)
  · rw [he] at h
    simp only at h
    rcases hseg : compute_segment_results c w
        (c.ld_from_drag_polar (w / c.wing_area_ft2)) c.ld_max with _ | segs
    · rw [hseg] at h
      exact absurd h (by simp)
    · rw [hseg] at h
      simp only [Option.some.injEq] at h
      subst h
      refine ⟨rfl, rfl, ?_⟩
      by_cases hm : (0 : ℝ) ≤ w - w * empty_weight_fraction_ch6 w c
          (e.total_max_thrust / w) (w / c.wing_area_ft2) -
          c.trapped_fuel_factor * sumFuel segs - c.crew_weight - c.payload_weight
      · simp [hm]
      · simp [hm]

/-- Witness for C4 at a concrete configuration and fixed weight. -/
theorem evaluate_fixed_w0_spec_witness :
    ∃ r, evaluate_fixed_w0 cfgE 1000 = some r ∧ r.iterations = 0 := by
  have h := evaluate_fixed_w0_spec cfgE 1000 _ (by norm_num) rfl
  exact ⟨_, rfl, h.1⟩

theorem guessSeq_succ_of_next (c : AircraftConfig) (e : Engine) (useCh6 : Bool)
    (w w2 : ℝ) (hn : nextGuess c e useCh6 w = some w2) (i : ℕ) :
    guessSeq c e useCh6 (i + 1) w = guessSeq c e useCh6 i w2 := by
  simp only [guessSeq, hn, Option.some_bind]

theorem solveLoop_iterations_le (c : AircraftConfig) (e : Engine) (tol : ℝ) (useCh6 : Bool) :
    ∀ (n : ℕ) (w : ℝ) (iters : ℕ) (res : ℝ × Bool × ℕ),
      solveLoop c e tol useCh6 n w iters = some res → res.2.2 ≤ iters + n := by
  intro n
  induction n with
  | zero =>
    intro w iters res h
    simp only [solveLoop, Option.some.injEq] at h
    subst h
    simp
  | succ m ih =>
    intro w iters res h
    simp only [solveLoop] at h
    rcases hd : iterDenom c e useCh6 w with _ | d
    · rw [hd] at h; exact absurd h (by simp)
    · rw [hd] at h
      simp only at h
      split at h
      · simp only [Option.some.injEq] at h
        subst h
        simp only
        omega
      · split at h
        · simp only [Option.some.injEq] at h
          subst h
          simp only
          omega
        · have := ih _ _ _ h
          omega

theorem solveLoop_converged_iff (c : AircraftConfig) (e : Engine) (tol : ℝ) (useCh6 : Bool) :
    ∀ (n : ℕ) (w : ℝ) (iters : ℕ) (res : ℝ × Bool × ℕ),
      solveLoop c e tol useCh6 n w iters = some res →
      (res.2.1 = true ↔ ConvergedWithin c e useCh6 tol w n) := by
  intro n
  induction n with
  | zero =>
    intro w iters res h
    simp only [solveLoop, Option.some.injEq] at h
    subst h
    simp [ConvergedWithin]
  | succ m ih =>
    intro w iters res h
    simp only [solveLoop] at h
    rcases hd : iterDenom c e useCh6 w with _ | d
    · rw [hd] at h; exact absurd h (by simp)
    · rw [hd] at h
      simp only at h
      split at h
      · rename_i hle
        simp only [Option.some.injEq] at h
        subst h
        simp only [Bool.false_eq_true, false_iff, ConvergedWithin]
        rintro ⟨i, hi, wi, hg, hprev, d2, hd2, hpos2, hcv2⟩
        cases i with
        | zero =>
          simp only [guessSeq, Option.some.injEq] at hg
          subst hg
          rw [hd] at hd2
          simp only [Option.some.injEq] at hd2
          subst hd2
          linarith
        | succ k =>
          obtain ⟨d0, hd0, hpos0, _⟩ := hprev 0 (by omega) w rfl
          rw [hd] at hd0
          simp only [Option.some.injEq] at hd0
          subst hd0
          linarith
      · rename_i hnle
        split at h
        · rename_i hcv
          simp only [Option.some.injEq] at h
          subst h
          refine iff_of_true rfl ?_
          exact ⟨0, by omega, w, rfl, by omega, ⟨d, hd, by linarith, hcv⟩⟩
        · rename_i hncv
          have hng : nextGuess c e useCh6 w = some (0.75 * w0New c d + 0.25 * w) := by
            simp [nextGuess, hd]
          rw [ih _ _ _ h]
          simp only [ConvergedWithin]
          constructor
          · rintro ⟨i, hi, wi, hg, hprev, hconv⟩
            refine ⟨i + 1, by omega, wi, ?_, ?_, hconv⟩
            · rw [guessSeq_succ_of_next c e useCh6 w _ hng]
              exact hg
            · intro j hj wj hgj
              cases j with
              | zero =>
                simp only [guessSeq, Option.some.injEq] at hgj
                subst hgj
                exact ⟨d, hd, by linarith, hncv⟩
              | succ k =>
                rw [guessSeq_succ_of_next c e useCh6 w _ hng] at hgj
                exact hprev k (by omega) wj hgj
          · rintro ⟨i, hi, wi, hg, hprev, hconv⟩
            cases i with
            | zero =>
              simp only [guessSeq, Option.some.injEq] at hg
              subst hg
              obtain ⟨d2, hd2, hpos2, hcv2⟩ := hconv
              rw [hd] at hd2
              simp only [Option.some.injEq] at hd2
              subst hd2
              exact absurd hcv2 hncv
            | succ k =>
              rw [guessSeq_succ_of_next c e useCh6 w _ hng] at hg
              refine ⟨k, by omega, wi, hg, ?_, hconv⟩
              intro j hj wj hgj
              exact hprev (j + 1) (by omega) wj
                (by rw [guessSeq_succ_of_next c e useCh6 w _ hng]; exact hgj)

theorem finalBreakdown_fields (c : AircraftConfig) (e : Engine) (w : ℝ) (cv : Bool)
    (it : ℕ) (b : Bool) (r : SizingResult) (h : finalBreakdown c e w cv it b = some r) :
    r.converged = cv ∧ r.iterations = it ∧ r.w0 = w := by
  simp only [finalBreakdown] at h
  rcases hs : compute_segment_results c w
      (c.ld_from_drag_polar (w / c.wing_area_ft2)) c.ld_max with _ | segs
  · rw [hs] at h; exact absurd h (by simp)
  · rw [hs] at h
    simp only [Option.some.injEq] at h
    subst h
    exact ⟨rfl, rfl, rfl⟩

/-- C2: for positive thrust, wing area, crew and payload weights, the solver
result has `converged = true` exactly when some iteration within the budget,
reached without an earlier break or convergence, satisfies
`|W0_new - W0| < tolerance`; the guess trajectory applies the damped update
`0.75*W0_new + 0.25*W0` after every failed test (this is the `guessSeq`
through which `ConvergedWithin` is phrased), and at most `max_iter`
iterations are performed. -/
theorem solve_takeoff_weight_convergence (c : AircraftConfig) (e : Engine)
    (he : c.engine = some e)
    (hthrust : 0 < e.total_max_thrust) (harea : 0 < c.wing_area_ft2)
    (hcrew : 0 < c.crew_weight) (hpayload : 0 < c.payload_weight)
    (g tol : ℝ) (n : ℕ) (b : Bool) (r : SizingResult)
    (h : solve_takeoff_weight c g tol n b = some r) :
    (r.converged = true ↔ ConvergedWithin c e b tol g n) ∧ r.iterations ≤ n := by
  simp only [solve_takeoff_weight, he] at h
  rcases hl : solveLoop c e tol b n g 0 with _ | res
  · rw [hl] at h; exact absurd h (by simp)
  · obtain ⟨w0, cv, it⟩ := res
    rw [hl] at h
    simp only at h
    obtain ⟨hc, hi, _⟩ := finalBreakdown_fields c e w0 cv it b r h
    have h1 := solveLoop_converged_iff c e tol b n g 0 (w0, cv, it) hl
    have h2 := solveLoop_iterations_le c e tol b n g 0 (w0, cv, it) hl
    rw [hc, hi]
    exact ⟨h1, by simpa using h2⟩

/-- Witness for C2 at a concrete configuration with a zero iteration budget. -/
theorem solve_takeoff_weight_convergence_witness :
    ∃ r, solve_takeoff_weight cfgW 60000 0.5 0 false = some r ∧ r.iterations ≤ 0 := by
  have hthrust : 0 < engW.total_max_thrust := by
    have h1 : engW.total_max_thrust = 10000 * ((2 : ℕ) : ℝ) := rfl
    rw [h1]; norm_num
  have harea : 0 < cfgW.wing_area_ft2 := by
    have h1 : cfgW.wing_area_ft2 = 520.0 := rfl
    rw [h1]; norm_num
  have hcrew : 0 < cfgW.crew_weight := by
    have h1 : cfgW.crew_weight = 400 := rfl
    rw [h1]; norm_num
  have hpayload : 0 < cfgW.payload_weight := by
    have h1 : cfgW.payload_weight = 800 := rfl
    rw [h1]; norm_num
  have h := solve_takeoff_weight_convergence cfgW engW rfl hthrust harea hcrew hpayload
    60000 0.5 0 false _ rfl
  exact ⟨_, rfl, h.2⟩

theorem solveLoop_reaches_break (c : AircraftConfig) (e : Engine) (tol : ℝ) (useCh6 : Bool) :
    ∀ (i n : ℕ) (g : ℝ) (iters : ℕ) (w d : ℝ),
      i < n →
      guessSeq c e useCh6 i g = some w →
      (∀ j < i, ∀ wj, guessSeq c e useCh6 j g = some wj →
        StepContinues c e useCh6 tol wj) →
      iterDenom c e useCh6 w = some d → d ≤ 0 →
      solveLoop c e tol useCh6 n g iters = some (w, false, iters + i + 1) := by
  intro i
  induction i with
  | zero =>
    intro n g iters w d hn hg hprev hd hle
    simp only [guessSeq, Option.some.injEq] at hg
    subst hg
    obtain ⟨m, rfl⟩ : ∃ m, n = m + 1 := ⟨n - 1, by omega⟩
    simp only [solveLoop]
    rw [hd]
    simp only
    rw [if_pos hle]
  | succ k ih =>
    intro n g iters w d hn hg hprev hd hle
    obtain ⟨m, rfl⟩ : ∃ m, n = m + 1 := ⟨n - 1, by omega⟩
    obtain ⟨d0, hd0, hpos0, hnc0⟩ := hprev 0 (by omega) g rfl
    have hng : nextGuess c e useCh6 g = some (0.75 * w0New c d0 + 0.25 * g) := by
      simp [nextGuess, hd0]
    rw [guessSeq_succ_of_next c e useCh6 g _ hng] at hg
    have hprev2 : ∀ j < k, ∀ wj,
        guessSeq c e useCh6 j (0.75 * w0New c d0 + 0.25 * g) = some wj →
        StepContinues c e useCh6 tol wj := by
      intro j hj wj hgj
      exact hprev (j + 1) (by omega) wj
        (by rw [guessSeq_succ_of_next c e useCh6 g _ hng]; exact hgj)
    have hrec := ih m (0.75 * w0New c d0 + 0.25 * g) (iters + 1) w d
      (by omega) hg hprev2 hd hle
    simp only [solveLoop]
    rw [hd0]
    simp only
    rw [if_neg (by linarith), if_neg hnc0]
    rw [hrec]
    have harith : iters + 1 + k + 1 = iters + (k + 1) + 1 := by omega
    rw [harith]

/-- C3: if an iteration of `solve_takeoff_weight` is reached at which the
sizing denominator `1 - fuel_fraction - empty_fraction` is nonpositive, the
loop stops there, the function still returns a result (no exception; every
field is total real arithmetic, so no NaN/Inf stands in for a failure), the
result has `converged = false`, its `w0` is the guess of that iteration,
its iteration count is that iteration's index, and the result is exactly the
fully recomputed breakdown at that last guess. -/
theorem solve_takeoff_weight_nonphysical (c : AircraftConfig) (e : Engine)
    (he : c.engine = some e) (g tol : ℝ) (n : ℕ) (b : Bool)
    (i : ℕ) (w d : ℝ) (hn : i < n)
    (hg : guessSeq c e b i g = some w)
    (hprev : ∀ j < i, ∀ wj, guessSeq c e b j g = some wj → StepContinues c e b tol wj)
    (hd : iterDenom c e b w = some d) (hdle : d ≤ 0) :
    ∃ r, solve_takeoff_weight c g tol n b = some r ∧
      r.converged = false ∧ r.w0 = w ∧ r.iterations = i + 1 ∧
      finalBreakdown c e w false (i + 1) b = some r := by
  have hloop := solveLoop_reaches_break c e tol b i n g 0 w d hn hg hprev hd hdle
  have hloop2 : solveLoop c e tol b n g 0 = some (w, false, i + 1) := by
    rw [hloop]
    norm_num
  have hsegs : ∃ segs, compute_segment_results c w
      (c.ld_from_drag_polar (w / c.wing_area_ft2)) c.ld_max = some segs := by
    simp only [iterDenom] at hd
    rcases hs : compute_segment_results c w
        (c.ld_from_drag_polar (w / c.wing_area_ft2)) c.ld_max with _ | segs
    · rw [hs] at hd; exact absurd hd (by simp)
    · exact ⟨segs, rfl⟩
  obtain ⟨segs, hs⟩ := hsegs
  have hfb : ∃ r, finalBreakdown c e w false (i + 1) b = some r := by
    simp only [finalBreakdown, hs]
    exact ⟨_, rfl⟩
  obtain ⟨r, hr⟩ := hfb
  obtain ⟨hc, hi2, hw⟩ := finalBreakdown_fields c e w false (i + 1) b r hr
  refine ⟨r, ?_, hc, hw, hi2, hr⟩
  simp only [solve_takeoff_weight, he]
  rw [hloop2]
  exact hr

/-- Witness for C3: a configuration whose refined empty-weight fraction is
the constant 2, so the first iteration's denominator is -1. -/
theorem solve_takeoff_weight_nonphysical_witness :
    ∃ r, solve_takeoff_weight cfgC 1000 0.5 1 true = some r ∧ r.converged = false := by
  have hd : iterDenom cfgC engW true 1000 = some (-1 : ℝ) := by
    have h0 : compute_segment_results cfgC 1000
        (cfgC.ld_from_drag_polar (1000 / cfgC.wing_area_ft2)) cfgC.ld_max = some [] := rfl
    simp only [iterDenom, h0, sumFuel, List.map_nil, List.sum_nil]
    norm_num [cfgC, empty_weight_fraction_ch6, Real.rpow_zero]
  obtain ⟨r, h1, h2, _⟩ := solve_takeoff_weight_nonphysical cfgC engW rfl 1000 0.5 1 true
    0 1000 (-1) (by omega) rfl (fun j hj => absurd hj (by omega)) hd (by norm_num)
  exact ⟨r, h1, h2⟩

theorem compute_segment_results_sum_zero (c : AircraftConfig) (lc ll : ℝ)
    (segs : List SegmentResult)
    (hs : compute_segment_results c 0 lc ll = some segs) : sumFuel segs = 0 := by
  obtain ⟨_, h2⟩ := walkSegments_fuel c lc ll c.segments 0 segs hs
  simpa [runningWeight] using h2

theorem finalBreakdown_consistency (c : AircraftConfig) (e : Engine) (w : ℝ) (cv : Bool)
    (it : ℕ) (b : Bool) (r : SizingResult) (h : finalBreakdown c e w cv it b = some r) :
    r.we = r.w0 * r.we_frac ∧ r.wf = r.wf_frac * r.w0 ∧
    r.trip_fuel = sumFuel (r.segment_results.take c.reserve_after_segment) ∧
    r.trip_fuel + r.reserve_fuel = r.wf := by
  simp only [finalBreakdown] at h
  rcases hs : compute_segment_results c w
      (c.ld_from_drag_polar (w / c.wing_area_ft2)) c.ld_max with _ | segs
  · rw [hs] at h; exact absurd h (by simp)
  · rw [hs] at h
    simp only [Option.some.injEq] at h
    subst h
    refine ⟨rfl, ?_, rfl, by ring⟩
    by_cases hw : w = 0
    · subst hw
      have hz : sumFuel segs = 0 := compute_segment_results_sum_zero c _ _ segs hs
      simp [hz]
    · field_simp

/-- C10: every result returned by `solve_takeoff_weight` or
`evaluate_fixed_w0` is internally consistent: `we = w0 * we_frac`,
`wf = wf_frac * w0`, `trip_fuel` is the fuel burned over the first
`reserve_after_segment` legs, and `trip_fuel + reserve_fuel = wf` exactly. -/
theorem sizing_result_internal_consistency (c : AircraftConfig)
    (g tol w : ℝ) (n : ℕ) (b : Bool) :
    (∀ r, solve_takeoff_weight c g tol n b = some r →
        r.we = r.w0 * r.we_frac ∧ r.wf = r.wf_frac * r.w0 ∧
        r.trip_fuel = sumFuel (r.segment_results.take c.reserve_after_segment) ∧
        r.trip_fuel + r.reserve_fuel = r.wf) ∧
    (∀ r, evaluate_fixed_w0 c w = some r →
        r.we = r.w0 * r.we_frac ∧ r.wf = r.wf_frac * r.w0 ∧
        r.trip_fuel = sumFuel (r.segment_results.take c.reserve_after_segment) ∧
        r.trip_fuel + r.reserve_fuel = r.wf) := by
  constructor
  · intro r h
    simp only [solve_takeoff_weight] at h
    rcases he : c.engine with _ | e
    · rw [he] at h; exact absurd h (by simp)
    · rw [he] at h
      simp only at h
      rcases hl : solveLoop c e tol b n g 0 with _ | res
      · rw [hl] at h; exact absurd h (by simp)
      · obtain ⟨w0, cv, it⟩ := res
        rw [hl] at h
        simp only at h
        exact finalBreakdown_consistency c e w0 cv it b r h
  · intro r h
    simp only [evaluate_fixed_w0] at h
    rcases he : c.engine with _ | e
    · rw [he] at h; exact absurd h (by simp)
    · rw [he] at h
      simp only at h
      rcases hs : compute_segment_results c w
          (c.ld_from_drag_polar (w / c.wing_area_ft2)) c.ld_max with _ | segs
      · rw [hs] at h; exact absurd h (by simp)
      · rw [hs] at h
        simp only [Option.some.injEq] at h
        subst h
        refine ⟨rfl, ?_, rfl, by ring⟩
        by_cases hw : w = 0
        · subst hw
          have hz : sumFuel segs = 0 := compute_segment_results_sum_zero c _ _ segs hs
          simp [hz]
        · field_simp

/-- Witness for C10 at concrete solver and evaluator calls. -/
theorem sizing_result_internal_consistency_witness :
    ∃ r1 r2, solve_takeoff_weight cfgW 60000 0.5 0 false = some r1 ∧
      evaluate_fixed_w0 cfgW 1000 = some r2 ∧
      r1.trip_fuel + r1.reserve_fuel = r1.wf ∧
      r2.trip_fuel + r2.reserve_fuel = r2.wf := by
  obtain ⟨h1, h2⟩ := sizing_result_internal_consistency cfgW 60000 0.5 1000 0 false
  exact ⟨_, _, rfl, rfl, (h1 _ rfl).2.2.2, (h2 _ rfl).2.2.2⟩

theorem fmrLoop_best_some (c : AircraftConfig) (w0 : ℝ) (mb : ℝ → List MissionSegment)
    (tol : ℝ) : ∀ (n : ℕ) (lo hi : ℝ) (b : SizingResult × ℝ)
      (res : Option (SizingResult × ℝ) × ℝ),
      fmrLoop c w0 mb tol n lo hi (some b) = some res → res.1 ≠ none := by
  intro n
  induction n with
  | zero =>
    intro lo hi b res h
    simp only [fmrLoop] at h
    split at h
    · simp only [Option.some.injEq] at h
      subst h
      simp
    · exact absurd h (by simp)
  | succ m ih =>
    intro lo hi b res h
    simp only [fmrLoop] at h
    split at h
    · simp only [Option.some.injEq] at h
      subst h
      simp
    · rcases hev : evaluate_fixed_w0 { c with segments := mb ((lo + hi) / 2) } w0
          with _ | result
      · rw [hev] at h; exact absurd h (by simp)
      · rw [hev] at h
        simp only at h
        split at h
        · exact ih _ _ _ _ h
        · exact ih _ _ _ _ h

theorem fmrLoop_none_keeps_lo (c : AircraftConfig) (w0 : ℝ) (mb : ℝ → List MissionSegment)
    (tol : ℝ) : ∀ (n : ℕ) (lo hi lo2 : ℝ),
      fmrLoop c w0 mb tol n lo hi none = some (none, lo2) → lo2 = lo := by
  intro n
  induction n with
  | zero =>
    intro lo hi lo2 h
    simp only [fmrLoop] at h
    split at h
    · simp only [Option.some.injEq, Prod.mk.injEq] at h
      exact h.2.symm
    · exact absurd h (by simp)
  | succ m ih =>
    intro lo hi lo2 h
    simp only [fmrLoop] at h
    split at h
    · simp only [Option.some.injEq, Prod.mk.injEq] at h
      exact h.2.symm
    · rcases hev : evaluate_fixed_w0 { c with segments := mb ((lo + hi) / 2) } w0
          with _ | result
      · rw [hev] at h; exact absurd h (by simp)
      · rw [hev] at h
        simp only at h
        split at h
        · exact absurd rfl (fmrLoop_best_some c w0 mb tol m _ _ _ _ h)
        · exact ih _ _ _ h

/-- C6: when no evaluated midpoint of the bracket closes the mission (the
search loop finishes with no recorded best result), `find_max_range` does
not fail: it evaluates the mission built at `range_lo` at the fixed `w0`
and returns that evaluator's result together with `range_lo`. -/
theorem find_max_range_fallback (c : AircraftConfig) (w0 : ℝ)
    (mb : ℝ → List MissionSegment) (lo hi tol : ℝ) (fuel : ℕ) (lo2 : ℝ)
    (p : SizingResult × ℝ)
    (hloop : fmrLoop c w0 mb tol fuel lo hi none = some (none, lo2))
    (h : find_max_range c w0 mb lo hi tol fuel = some p) :
    p.2 = lo ∧ evaluate_fixed_w0 { c with segments := mb lo } w0 = some p.1 := by
  have hlo : lo2 = lo := fmrLoop_none_keeps_lo c w0 mb tol fuel lo hi lo2 hloop
  subst hlo
  simp only [find_max_range, hloop] at h
  rcases hev : evaluate_fixed_w0 { c with segments := mb lo2 } w0 with _ | r
  · rw [hev] at h; exact absurd h (by simp)
  · rw [hev] at h
    simp only [Option.some.injEq] at h
    subst h
    exact ⟨rfl, rfl⟩

/-- Witness for C6: a degenerate bracket, so the loop records no feasible
midpoint and the fallback evaluation at `range_lo` is returned. -/
theorem find_max_range_fallback_witness :
    ∃ p, find_max_range cfgW 1000 mbE 100 100 1 0 = some p ∧ p.2 = 100 := by
  have hloop : fmrLoop cfgW 1000 mbE 1 0 100 100 none = some (none, 100) := by
    simp only [fmrLoop]
    rw [if_pos (by norm_num : (100 : ℝ) - 100 ≤ 1)]
  have h : ∃ p, find_max_range cfgW 1000 mbE 100 100 1 0 = some p := by
    simp only [find_max_range, hloop]
    exact ⟨_, rfl⟩
  obtain ⟨p, hp⟩ := h
  exact ⟨p, hp, (find_max_range_fallback cfgW 1000 mbE 100 100 1 0 100 p hloop hp).1⟩

theorem fmrLoopH_frame (w0 : ℝ) (mb : ℝ → List MissionSegment) (tol : ℝ) (ci : ℕ) :
    ∀ (n : ℕ) (H : Heap) (lo hi : ℝ) (best : Option (SizingResult × ℝ))
      (b2 : Option (SizingResult × ℝ)) (l2 : ℝ) (H2 : Heap),
      fmrLoopH w0 mb tol ci n H lo hi best = some (b2, l2, H2) →
      H.2 ≤ H2.2 ∧ ∀ j < H.2, heapRead H2 j = heapRead H j := by
  intro n
  induction n with
  | zero =>
    intro H lo hi best b2 l2 H2 h
    simp only [fmrLoopH] at h
    split at h
    · simp only [Option.some.injEq, Prod.mk.injEq] at h
      obtain ⟨-, -, h3⟩ := h
      subst h3
      exact ⟨le_refl _, fun j _ => rfl⟩
    · exact absurd h (by simp)
  | succ m ih =>
    intro H lo hi best b2 l2 H2 h
    simp only [fmrLoopH] at h
    split at h
    · simp only [Option.some.injEq, Prod.mk.injEq] at h
      obtain ⟨-, -, h3⟩ := h
      subst h3
      exact ⟨le_refl _, fun j _ => rfl⟩
    · set Hm : Heap := heapWrite (heapAlloc H (heapRead H ci)).1
        (heapAlloc H (heapRead H ci)).2
        { heapRead (heapAlloc H (heapRead H ci)).1 (heapAlloc H (heapRead H ci)).2 with
          segments := mb ((lo + hi) / 2) } with hHm
      have hm2 : Hm.2 = H.2 + 1 := rfl
      have hmr : ∀ j < H.2, heapRead Hm j = heapRead H j := by
        intro j hj
        have hne : j ≠ H.2 := by omega
        rw [hHm]
        simp only [heapRead, heapWrite, heapAlloc]
        rw [Function.update_noteq hne, Function.update_noteq hne]
      rcases hev : evaluate_fixed_w0 (heapRead Hm (heapAlloc H (heapRead H ci)).2) w0
          with _ | result
      · rw [hev] at h
        exact absurd h (by simp)
      · rw [hev] at h
        simp only at h
        split at h
        · obtain ⟨hle, hpres⟩ := ih _ _ _ _ _ _ _ h
          refine ⟨by omega, fun j hj => ?_⟩
          rw [hpres j (by omega), hmr j hj]
        · obtain ⟨hle, hpres⟩ := ih _ _ _ _ _ _ _ h
          refine ⟨by omega, fun j hj => ?_⟩
          rw [hpres j (by omega), hmr j hj]

/-- C7: in the heap model of `find_max_range`, where `copy.deepcopy` is a
fresh allocation and the assignment to `cfg.segments` is a store to the
copy's address, the call leaves every pre-existing heap object unchanged;
in particular the caller's configuration, including its `segments` list, is
exactly what it was before the call. -/
theorem find_max_rangeH_no_mutation (w0 : ℝ) (mb : ℝ → List MissionSegment)
    (tol : ℝ) (ci fuel : ℕ) (H : Heap) (lo hi : ℝ) (p : SizingResult × ℝ) (H2 : Heap)
    (hci : ci < H.2)
    (h : find_max_rangeH w0 mb tol ci fuel H lo hi = some (p, H2)) :
    heapRead H2 ci = heapRead H ci ∧
    (heapRead H2 ci).segments = (heapRead H ci).segments ∧
    ∀ j < H.2, heapRead H2 j = heapRead H j := by
  have hall : ∀ j < H.2, heapRead H2 j = heapRead H j := by
    simp only [find_max_rangeH] at h
    rcases hl : fmrLoopH w0 mb tol ci fuel H lo hi none with _ | res
    · rw [hl] at h; exact absurd h (by simp)
    · obtain ⟨b2, l2, H3⟩ := res
      rw [hl] at h
      simp only at h
      obtain ⟨hle, hpres⟩ := fmrLoopH_frame w0 mb tol ci fuel H lo hi none b2 l2 H3 hl
      rcases b2 with _ | br
      · rcases hev : evaluate_fixed_w0 (heapRead (heapWrite (heapAlloc H3 (heapRead H3 ci)).1
            (heapAlloc H3 (heapRead H3 ci)).2
            { heapRead (heapAlloc H3 (heapRead H3 ci)).1 (heapAlloc H3 (heapRead H3 ci)).2 with
              segments := mb l2 }) (heapAlloc H3 (heapRead H3 ci)).2) w0 with _ | r
        · rw [hev] at h; exact absurd h (by simp)
        · rw [hev] at h
          simp only [Option.some.injEq, Prod.mk.injEq] at h
          obtain ⟨-, h3⟩ := h
          subst h3
          intro j hj
          have hne : j ≠ H3.2 := by omega
          simp only [heapRead, heapWrite, heapAlloc]
          rw [Function.update_noteq hne, Function.update_noteq hne]
          exact hpres j hj
      · simp only [Option.some.injEq, Prod.mk.injEq] at h
        obtain ⟨-, h3⟩ := h
        subst h3
        exact hpres
  exact ⟨hall ci hci, by rw [hall ci hci], hall⟩

/-- Witness for C7 on a one-cell heap holding a concrete configuration. -/
theorem find_max_rangeH_no_mutation_witness :
    ∃ p H2, find_max_rangeH 1000 mbE 1 0 0 heapW 100 100 = some (p, H2) ∧
      heapRead H2 0 = heapRead heapW 0 := by
  have hloop : fmrLoopH 1000 mbE 1 0 0 heapW 100 100 none = some (none, 100, heapW) := by
    simp only [fmrLoopH]
    rw [if_pos (by norm_num : (100 : ℝ) - 100 ≤ 1)]
  have h : ∃ p H2, find_max_rangeH 1000 mbE 1 0 0 heapW 100 100 = some (p, H2) := by
    simp only [find_max_rangeH, hloop]
    exact ⟨_, _, rfl⟩
  obtain ⟨p, H2, hp⟩ := h
  have hci : (0 : ℕ) < heapW.2 := by
    have h1 : heapW.2 = 1 := rfl
    rw [h1]
    norm_num
  exact ⟨p, H2, hp, (find_max_rangeH_no_mutation 1000 mbE 1 0 0 heapW 100 100 p H2 hci hp).1⟩
